import Mathlib

set_option maxRecDepth 10000

/-!
Verification of the anvil-lib region codec against its specification.

The development shallowly embeds the Rust sources of the repository:

* `src/src/raw/unpack/mod.rs` — the decoder `get_region_raw`;
* `src/src/raw/raw_schema.rs`  — the `AnvilSchema` configuration value;
* `src/src/raw/raw_error.rs`   — the `RawError` taxonomy of the packer;
* `src/src/raw/pack.rs`        — the encoder helpers (`pack_chunks`,
  `format_chunk_data`, `get_packed_chunk`, `make_header`,
  `create_header_table`, `make_byte_arr`, `make_compr_bytes`,
  `next_multiple`);
* `src/src/raw/mod.rs`         — `RawRegion::to_file` / `from_file`.

Machine integers (`usize`, `u8`, `u32`) are embedded as `Nat`; the byte
values handled never approach the word size, and where Rust arithmetic can
fail we model the failure explicitly: `usize` subtraction follows Rust's
checked (debug) semantics through `checkedSub`, and any out-of-bounds slice
index or `Vec::splice` range is represented by an explicit `panic` result
rather than an arbitrary value.  A byte slice `&[u8]` is embedded as its
length together with its indexing function; all reads go through
`ByteSlice.get`, which returns `none` exactly where Rust indexing panics.
-/

namespace Anvil

/-- Embedding of a Rust byte slice `&[u8]`: a length and the byte found at
each in-range index.  Reads outside the length model a Rust panic. -/

structure ByteSlice where
  size : Nat
  byte : Nat → Nat

/-- Indexing `file[i]`: `some` byte when `i` is in bounds, `none` standing
for the Rust out-of-bounds panic. -/

def ByteSlice.get (s : ByteSlice) (i : Nat) : Option Nat :=
  if i < s.size then some (s.byte i) else none

/-- Modelled from the spec: the constant `CHUNKS_PER_REGION` referenced by
`src/src/raw/unpack/mod.rs` as `super::CHUNKS_PER_REGION` is declared in a
module that is not part of the source snapshot.  The spec fixes the slot
count at 1024, matching the hard-coded loop bound `0..1024` of the sibling
implementation `src/src/raw/unpack.rs`. -/

def CHUNKS_PER_REGION : Nat := 1024

/-- Error type of the decoder, after `RegionParseError` in
`src/src/raw/unpack/mod.rs` (variant payloads as used at the `return Err`
sites: `FileSizeErr(file_length, minimum)`, `ChunkPosErr(index,
file_length, chunk_end)`, `ChunkHeaderErr(index, max_length,
indicated_length)`). -/

inductive RegionParseError
  | fileSizeErr : Nat → Nat → RegionParseError
  | chunkPosErr : Nat → Nat → Nat → RegionParseError
  | chunkHeaderErr : Nat → Nat → Nat → RegionParseError
deriving DecidableEq

/-- Result of the decoder: the Rust `Result` extended with an explicit
`panic` outcome for out-of-bounds indexing / slicing. -/

inductive DResult
  | ok : List (List Nat × Nat) → DResult
  | err : RegionParseError → DResult
  | panic : DResult
deriving DecidableEq

/-- The `for iter in 0..CHUNKS_PER_REGION` loop body of `get_region_raw`
(`src/src/raw/unpack/mod.rs`), with `fuel` remaining iterations, current
slot index `iter`, and the accumulated output (in reverse push order,
reversed on return).  Every byte access models `file[..]`; the payload
slice `file[(entry_pos + 5)..=(entry_pos + 4 + size)]` is in bounds exactly
when `entry_pos + 5 + size ≤ file.size`, otherwise the loop panics. -/

def decodeLoop (file : ByteSlice) : Nat → Nat → List (List Nat × Nat) → DResult
  | 0, _, output => DResult.ok output.reverse
  | fuel + 1, iter, output =>
    let offset := iter * 4
    match file.get offset, file.get (offset + 1), file.get (offset + 2),
        file.get (offset + 3) with
    | some t3, some t2, some t1, some szb =>
      let third_byte := t3 <<< 16
      let second_byte := t2 <<< 8
      let first_byte := t1
      let entry_pos := (third_byte + second_byte + first_byte) * 4096
      let rough_size := szb * 4096
      if entry_pos ≠ 0 then
        if file.size < entry_pos + rough_size then
          DResult.err (RegionParseError.chunkPosErr iter file.size (entry_pos + rough_size))
        else
          match file.get entry_pos, file.get (entry_pos + 1), file.get (entry_pos + 2),
              file.get (entry_pos + 3) with
          | some b3, some b2, some b1, some b0 =>
            let size := b3 <<< 24 + b2 <<< 16 + b1 <<< 8 + b0
            if 4 + size > rough_size then
              DResult.err (RegionParseError.chunkHeaderErr iter rough_size (4 + size))
            else
              if entry_pos + 5 + size ≤ file.size then
                match file.get (entry_pos + 4) with
                | some compr =>
                  decodeLoop file fuel (iter + 1)
                    (((List.range size).map (fun j => file.byte (entry_pos + 5 + j)),
                      compr) :: output)
                | none => DResult.panic
              else DResult.panic
          | _, _, _, _ => DResult.panic
      else
        decodeLoop file fuel (iter + 1) (([], 0) :: output)
    | _, _, _, _ => DResult.panic

/-- The decoder `get_region_raw` of `src/src/raw/unpack/mod.rs`: the
minimum-size check followed by the slot loop. -/

def get_region_raw (file : ByteSlice) : DResult :=
  if file.size < 8192 then DResult.err (RegionParseError.fileSizeErr file.size 8192)
  else decodeLoop file CHUNKS_PER_REGION 0 []

/-- The byte position `entry_pos` the loop derives from position-table
entry `iter`: the top three bytes of the entry, big-endian, times 4096. -/

def entryPosOf (file : ByteSlice) (iter : Nat) : Nat :=
  ((file.byte (iter * 4)) <<< 16 + (file.byte (iter * 4 + 1)) <<< 8 +
    file.byte (iter * 4 + 2)) * 4096

/-- The `rough_size` the loop derives from position-table entry `iter`:
its low byte times 4096. -/

def roughSizeOf (file : ByteSlice) (iter : Nat) : Nat :=
  file.byte (iter * 4 + 3) * 4096

/-- The exact size the loop reads from the four-byte big-endian chunk
header starting at byte `pos`. -/

def exactSizeOf (file : ByteSlice) (pos : Nat) : Nat :=
  (file.byte pos) <<< 24 + (file.byte (pos + 1)) <<< 16 +
    (file.byte (pos + 2)) <<< 8 + file.byte (pos + 3)

/-- The schema value of `src/src/raw/raw_schema.rs`; the byte sub-ranges
are embedded as pairs `(start, end)`. -/

structure AnvilSchema where
  chunks_per_region : Nat
  posistion_table_record_len : Nat
  min_anvil_file_size : Nat
  pos_multiplier : Nat
  size_multiplier : Nat
  pos_table_start_bytes : Nat × Nat
  pos_table_size_bytes : Nat × Nat
  chunk_starts_from : Nat
  chunk_header_size_bytes : Nat × Nat
  chunk_header_compr_bytes : Nat × Nat
deriving DecidableEq

/-- The default schema, `AnvilSchema::default` in
`src/src/raw/raw_schema.rs`. -/

def AnvilSchema.default : AnvilSchema where
  chunks_per_region := 1024
  posistion_table_record_len := 4
  min_anvil_file_size := 8192
  pos_multiplier := 4096
  size_multiplier := 4096
  pos_table_start_bytes := (0, 3)
  pos_table_size_bytes := (3, 4)
  chunk_starts_from := 5
  chunk_header_size_bytes := (0, 4)
  chunk_header_compr_bytes := (4, 5)

/-- The `Compression` enum of `src/src/raw/mod.rs`: exactly the three
variants the source declares. -/

inductive Compression
  | gZip
  | zLib
  | none
deriving DecidableEq

/-- A chunk as the packer sees it (`type RawChunk = (Compression, Vec<u8>, u32)`
in `src/src/raw/mod.rs`): compression, payload bytes, timestamp. -/

def RawChunk : Type := Compression × List Nat × Nat

instance : DecidableEq RawChunk := by
  unfold RawChunk
  infer_instance

/-- The `RawRegion` wrapper struct of `src/src/raw/mod.rs`. -/

structure RawRegion where
  chunks : List RawChunk

/-- The payload carried by every `RawError` variant
(`src/src/raw/raw_error.rs`). -/

structure RawErrData where
  chunk_index : Nat
  specified_val : Nat
  min_val : Nat
  max_val : Nat
deriving DecidableEq

/-- The `RawError` enum of `src/src/raw/raw_error.rs`. -/

inductive RawError
  | pack
  | packNoChunksErr : RawErrData → RawError
  | unpackFileSizeErr : RawErrData → RawError
  | unpackChunkPosErr : RawErrData → RawError
  | unpackChunkHeaderErr : RawErrData → RawError
deriving DecidableEq

/-- `RawError::throw_no_chunks_err` of `src/src/raw/raw_error.rs`. -/

def RawError.throw_no_chunks_err (no_chunks req_number : Nat) : RawError :=
  RawError.packNoChunksErr ⟨0, no_chunks, req_number, req_number⟩

/-- Rust `usize` subtraction in its checked (debug) semantics: `none`
models the overflow panic raised when the subtrahend is larger. -/

def checkedSub (a b : Nat) : Option Nat :=
  if b ≤ a then some (a - b) else none

/-- Rust `Vec::splice(a..b, repl)` restricted to what the packer does with
it (the returned iterator of removed elements is dropped): replaces the
elements of `v` in range `a..b` by `repl`.  `none` models the panic Rust
raises when the range is invalid for `v`. -/

def splice (v : List Nat) (a b : Nat) (repl : List Nat) : Option (List Nat) :=
  if a ≤ b ∧ b ≤ v.length then some (v.take a ++ repl ++ v.drop b) else none

/-- `make_byte_arr` of `src/src/raw/pack.rs`: little-endian byte
extraction of `num`, `length` bytes, then reversed so the result is
big-endian. -/

def make_byte_arr (num length : Nat) : List Nat :=
  ((List.range length).map (fun iter => (num >>> (iter * 8)) &&& 255)).reverse

/-- `make_compr_bytes` of `src/src/raw/pack.rs`. -/

def make_compr_bytes (compr : Compression) : List Nat :=
  match compr with
  | Compression.gZip => [1]
  | Compression.zLib => [2]
  | Compression.none => [0]

/-- `next_multiple` of `src/src/raw/pack.rs`.  The source computes
`base * ceil(num / base)` through `f64`; this is the same ceiling,
expressed over `Nat` (exact for every byte count the packer can see, the
operands being far below 2^53). -/

def next_multiple (num base : Nat) : Nat :=
  base * ((num + base - 1) / base)

/-- `get_packed_chunk` of `src/src/raw/pack.rs`: pad the chunk with
trailing zeros up to the next multiple of `schema.size_multiplier`. -/

def get_packed_chunk (chunk : List Nat) (schema : AnvilSchema) : List Nat :=
  let final_size := next_multiple chunk.length schema.size_multiplier
  let amount_to_add := final_size - chunk.length
  chunk ++ List.replicate amount_to_add 0

/-- `make_header` of `src/src/raw/pack.rs`.  The byte width passed to
`make_byte_arr` is `size_start - size_end` in the source — a `usize`
subtraction — so the checked subtraction comes first, exactly as the
argument is evaluated in Rust; `none` models the panic. -/

def make_header (size : Nat) (compression : Compression) (schema : AnvilSchema) :
    Option (List Nat) := do
  let output_vec := List.replicate schema.chunk_starts_from 0
  let (size_start, size_end) := schema.chunk_header_size_bytes
  let (compr_start, compr_end) := schema.chunk_header_compr_bytes
  let width ← checkedSub size_start size_end
  let size_bytes := make_byte_arr size width
  let compr_bytes := make_compr_bytes compression
  let v1 ← splice output_vec size_start size_end size_bytes
  let v2 ← splice v1 compr_start compr_end compr_bytes
  return v2

/-- `format_chunk_data` of `src/src/raw/pack.rs`. -/

def format_chunk_data (chunk : List Nat) (compression : Compression)
    (schema : AnvilSchema) : Option (List Nat) :=
  if chunk.length = 0 then some []
  else do
    let new_chunk_data := get_packed_chunk chunk schema
    let header ← make_header chunk.length compression schema
    return header ++ new_chunk_data

/-- The `for iter in 0..schema.chunks_per_region` loop of `pack_chunks`
(`src/src/raw/pack.rs`); `chunks[iter]` out of range models the Rust
indexing panic as `none`. -/

def pack_chunksLoop (chunks : List RawChunk) (schema : AnvilSchema) :
    Nat → Nat → List (List Nat) → Option (List (List Nat))
  | 0, _, acc => some acc.reverse
  | fuel + 1, iter, acc => do
    let (compression, chunk, _timestamp) ← chunks.get? iter
    let new_chunk ← format_chunk_data chunk compression schema
    pack_chunksLoop chunks schema fuel (iter + 1) (new_chunk :: acc)

/-- `pack_chunks` of `src/src/raw/pack.rs`.  The source's return type is
`Result<Vec<Vec<u8>>, RawError>` but no error is ever constructed, so only
the success payload is modelled; `none` is a panic. -/

def pack_chunks (chunks : List RawChunk) (schema : AnvilSchema) :
    Option (List (List Nat)) :=
  pack_chunksLoop chunks schema schema.chunks_per_region 0 []

/-- The `for iter in 0..chunks.len()` loop of `create_header_table`
(`src/src/raw/pack.rs`), carrying the running `pos_from_start` and the two
tables being accumulated.  As in the source, each iteration adds
`schema.min_anvil_file_size + packed_chunk.len()` to the running position
before writing it, and the byte widths handed to `make_byte_arr` are the
`usize` subtractions `start - end` of the range endpoints. -/

def create_header_tableLoop (chunks : List RawChunk) (packed_chunks : List (List Nat))
    (schema : AnvilSchema) :
    Nat → Nat → Nat → List Nat → List Nat → Option (List Nat)
  | 0, _, _, new_pos_table, new_date_table => some (new_pos_table ++ new_date_table)
  | fuel + 1, iter, pos_from_start, new_pos_table, new_date_table => do
    let (_compression, _chunk, timestamp) ← chunks.get? iter
    let packed_chunk ← packed_chunks.get? iter
    let pos2 := pos_from_start + schema.min_anvil_file_size + packed_chunk.length
    let new_record := List.replicate schema.posistion_table_record_len 0
    let (start_byte_start, start_byte_end) := schema.pos_table_start_bytes
    let (size_byte_start, size_byte_end) := schema.pos_table_size_bytes
    let wstart ← checkedSub start_byte_start start_byte_end
    let start_bytes := make_byte_arr pos2 wstart
    let wsize ← checkedSub size_byte_start size_byte_end
    let size_bytes := make_byte_arr packed_chunk.length wsize
    let r1 ← splice new_record start_byte_start start_byte_end start_bytes
    let r2 ← splice r1 size_byte_start size_byte_end size_bytes
    let new_date := make_byte_arr timestamp 4
    create_header_tableLoop chunks packed_chunks schema fuel (iter + 1) pos2
      (new_pos_table ++ r2) (new_date_table ++ new_date)

/-- `create_header_table` of `src/src/raw/pack.rs`. -/

def create_header_table (chunks : List RawChunk) (packed_chunks : List (List Nat))
    (schema : AnvilSchema) : Option (List Nat) :=
  create_header_tableLoop chunks packed_chunks schema chunks.length 0 0 [] []

/-- Result of `RawRegion::to_file`: the Rust `Result` extended with an
explicit `panic` outcome. -/

inductive PackResult
  | ok : List Nat → PackResult
  | err : RawError → PackResult
  | panic : PackResult
deriving DecidableEq

/-- `RawRegion::to_file` of `src/src/raw/mod.rs`: the slot-count check,
then `pack_chunks` and `create_header_table`; the computed header table is
discarded and the function returns `Ok(Vec::new())`, i.e. an empty byte
vector. -/

def RawRegion.to_file (self : RawRegion) (schema : AnvilSchema) : PackResult :=
  let chunks := self.chunks
  if chunks.length ≠ schema.chunks_per_region then
    PackResult.err (RawError.throw_no_chunks_err chunks.length schema.chunks_per_region)
  else
    match pack_chunks chunks schema with
    | Option.none => PackResult.panic
    | some packed_chunks =>
      match create_header_table chunks packed_chunks schema with
      | Option.none => PackResult.panic
      | some _header_table => PackResult.ok []

/-- A never-populated chunk: no compression, empty payload, timestamp 0. -/

def absentChunk : RawChunk := (Compression.none, [], 0)

/-- The all-absent region of 1024 chunks. -/

def allAbsentRegion : RawRegion := ⟨List.replicate 1024 absentChunk⟩

/-- A region with one chunk too few. -/

def region1023 : RawRegion := ⟨List.replicate 1023 absentChunk⟩

/-- An 8192-byte buffer of zeros: both tables present, all slots empty. -/

def zeroSlice8192 : ByteSlice := ⟨8192, fun _ => 0⟩

/-- An empty input buffer. -/

def emptySlice : ByteSlice := ⟨0, fun _ => 0⟩

/-- An 8192-byte buffer, all zero except timestamp-table entry 0, whose
big-endian value is 42 (low byte at index 4099). -/

def tsSlice8192 : ByteSlice := ⟨8192, fun i => if i = 4099 then 42 else 0⟩

/-- An 8192-byte buffer whose first position-table entry points at offset
block 100 (far past the end) with extent length 0. -/

def w7file : ByteSlice := ⟨8192, fun i => if i = 2 then 100 else 0⟩

/-- An 8192-byte buffer whose first position-table entry has offset block
2 (`entry_pos = 8192`, exactly the buffer length) and size byte 0: the
position check `file.len() < entry_pos + rough_size` passes and the
header read `file[entry_pos]` is out of bounds. -/

def c10file : ByteSlice := ⟨8192, fun i => if i = 2 then 2 else 0⟩

/-- A 12289-byte buffer: slot 0 has extent at 8192 of one block (4096
bytes), and its header declares exact size 4092 = 0x0FFC with tag byte 1.
Here `4 + 4092 = 4096` equals the extent length, so the code's header
check passes, while `4092 + 5 = 4097` exceeds the extent length. -/

def c2xfile : ByteSlice :=
  ⟨12289, fun i =>
    if i = 2 then 2 else if i = 3 then 1 else
    if i = 8194 then 15 else if i = 8195 then 252 else
    if i = 8196 then 1 else 0⟩

/-- A 12288-byte buffer: slot 0 has extent at 8192 of one block, and its
header declares exact size 4093, so `4 + 4093 = 4097` exceeds the
4096-byte extent. -/

def c2wfile : ByteSlice :=
  ⟨12288, fun i =>
    if i = 2 then 2 else if i = 3 then 1 else
    if i = 8194 then 15 else if i = 8195 then 253 else 0⟩

/-- A 12288-byte buffer: slot 0 extent at 8192 of one block, header exact
size 10, tag byte 7, payload bytes all 9, and timestamp-table entry 0
equal to 42. -/

def c8afile : ByteSlice :=
  ⟨12288, fun i =>
    if i = 2 then 2 else if i = 3 then 1 else
    if i = 4099 then 42 else
    if i = 8195 then 10 else if i = 8196 then 7 else
    if 8197 ≤ i ∧ i < 8207 then 9 else 0⟩

/-- The same buffer as `c8afile` except that timestamp-table entry 0 is
zero. -/

def c8bfile : ByteSlice :=
  ⟨12288, fun i =>
    if i = 2 then 2 else if i = 3 then 1 else
    if i = 8195 then 10 else if i = 8196 then 7 else
    if 8197 ≤ i ∧ i < 8207 then 9 else 0⟩

/-- A one-chunk input for `create_header_table`. -/

def demoChunks : List RawChunk := [(Compression.gZip, List.replicate 10 1, 5)]

/-- The padded extent matching `demoChunks`. -/

def demoPacked : List (List Nat) := [List.replicate 10 1 ++ List.replicate 4086 0]

/-- C9 counterexample: two buffers that differ exactly in timestamp-table
entry 0 (byte 4099: 42 versus 0) decode to the same region, so the record
emitted for a zero-offset slot cannot carry the i-th timestamp-table
entry as the claim states — the decoder never reads the timestamp
table. -/

theorem ByteSlice.get_eq_some (s : ByteSlice) (i : Nat) (h : i < s.size) :
    s.get i = some (s.byte i) := by
  simp [ByteSlice.get, h]

theorem decodeLoop_step_empty (file : ByteSlice) (fuel iter : Nat)
    (output : List (List Nat × Nat))
    (hsz : 8192 ≤ file.size) (hiter : iter < 1024)
    (hpop : entryPosOf file iter = 0) :
    decodeLoop file (fuel + 1) iter output =
      decodeLoop file fuel (iter + 1) (([], 0) :: output) := by
  have h0 : iter * 4 < file.size := by omega
  have h1 : iter * 4 + 1 < file.size := by omega
  have h2 : iter * 4 + 2 < file.size := by omega
  have h3 : iter * 4 + 3 < file.size := by omega
  rw [decodeLoop, ByteSlice.get_eq_some file _ h0, ByteSlice.get_eq_some file _ h1,
    ByteSlice.get_eq_some file _ h2, ByteSlice.get_eq_some file _ h3]
  simp only [entryPosOf] at hpop
  simp [hpop]

theorem decodeLoop_step_emit (file : ByteSlice) (fuel iter : Nat)
    (output : List (List Nat × Nat))
    (hsz : 8192 ≤ file.size) (hiter : iter < 1024)
    (hpop : entryPosOf file iter ≠ 0)
    (hext : entryPosOf file iter + roughSizeOf file iter ≤ file.size)
    (hhdr : 4 + exactSizeOf file (entryPosOf file iter) ≤ roughSizeOf file iter)
    (hslice : entryPosOf file iter + 5 + exactSizeOf file (entryPosOf file iter) ≤ file.size) :
    decodeLoop file (fuel + 1) iter output =
      decodeLoop file fuel (iter + 1)
        (((List.range (exactSizeOf file (entryPosOf file iter))).map
            (fun j => file.byte (entryPosOf file iter + 5 + j)),
          file.byte (entryPosOf file iter + 4)) :: output) := by
  have h0 : iter * 4 < file.size := by omega
  have h1 : iter * 4 + 1 < file.size := by omega
  have h2 : iter * 4 + 2 < file.size := by omega
  have h3 : iter * 4 + 3 < file.size := by omega
  -- the rounded extent is a positive multiple of 4096, so header reads are in bounds
  have hr4096 : 4096 ≤ roughSizeOf file iter := by
    have : roughSizeOf file iter ≠ 0 := by omega
    simp only [roughSizeOf] at this ⊢
    omega
  have he0 : entryPosOf file iter < file.size := by omega
  have he1 : entryPosOf file iter + 1 < file.size := by omega
  have he2 : entryPosOf file iter + 2 < file.size := by omega
  have he3 : entryPosOf file iter + 3 < file.size := by omega
  have he4 : entryPosOf file iter + 4 < file.size := by omega
  rw [decodeLoop, ByteSlice.get_eq_some file _ h0, ByteSlice.get_eq_some file _ h1,
    ByteSlice.get_eq_some file _ h2, ByteSlice.get_eq_some file _ h3]
  simp only [entryPosOf] at hpop hext he0 he1 he2 he3 he4 hhdr hslice
  simp only [roughSizeOf] at hext hhdr
  simp only [exactSizeOf] at hhdr hslice
  dsimp only
  rw [if_pos hpop, if_neg (by omega), ByteSlice.get_eq_some file _ he0,
    ByteSlice.get_eq_some file _ he1, ByteSlice.get_eq_some file _ he2,
    ByteSlice.get_eq_some file _ he3]
  dsimp only
  rw [if_neg (by omega), if_pos (by omega), ByteSlice.get_eq_some file _ he4]
  rfl

theorem decodeLoop_step_poserr (file : ByteSlice) (fuel iter : Nat)
    (output : List (List Nat × Nat))
    (hsz : 8192 ≤ file.size) (hiter : iter < 1024)
    (hpop : entryPosOf file iter ≠ 0)
    (hover : file.size < entryPosOf file iter + roughSizeOf file iter) :
    decodeLoop file (fuel + 1) iter output =
      DResult.err (RegionParseError.chunkPosErr iter file.size
        (entryPosOf file iter + roughSizeOf file iter)) := by
  have h0 : iter * 4 < file.size := by omega
  have h1 : iter * 4 + 1 < file.size := by omega
  have h2 : iter * 4 + 2 < file.size := by omega
  have h3 : iter * 4 + 3 < file.size := by omega
  rw [decodeLoop, ByteSlice.get_eq_some file _ h0, ByteSlice.get_eq_some file _ h1,
    ByteSlice.get_eq_some file _ h2, ByteSlice.get_eq_some file _ h3]
  simp only [entryPosOf] at hpop hover
  simp only [roughSizeOf] at hover ⊢
  rw [if_pos hpop, if_pos hover]
  rfl

theorem decodeLoop_step_headererr (file : ByteSlice) (fuel iter : Nat)
    (output : List (List Nat × Nat))
    (hsz : 8192 ≤ file.size) (hiter : iter < 1024)
    (hpop : entryPosOf file iter ≠ 0)
    (hext : entryPosOf file iter + roughSizeOf file iter ≤ file.size)
    (hrd : entryPosOf file iter + 4 ≤ file.size)
    (hbig : roughSizeOf file iter < 4 + exactSizeOf file (entryPosOf file iter)) :
    decodeLoop file (fuel + 1) iter output =
      DResult.err (RegionParseError.chunkHeaderErr iter (roughSizeOf file iter)
        (4 + exactSizeOf file (entryPosOf file iter))) := by
  have h0 : iter * 4 < file.size := by omega
  have h1 : iter * 4 + 1 < file.size := by omega
  have h2 : iter * 4 + 2 < file.size := by omega
  have h3 : iter * 4 + 3 < file.size := by omega
  have he0 : entryPosOf file iter < file.size := by omega
  have he1 : entryPosOf file iter + 1 < file.size := by omega
  have he2 : entryPosOf file iter + 2 < file.size := by omega
  have he3 : entryPosOf file iter + 3 < file.size := by omega
  rw [decodeLoop, ByteSlice.get_eq_some file _ h0, ByteSlice.get_eq_some file _ h1,
    ByteSlice.get_eq_some file _ h2, ByteSlice.get_eq_some file _ h3]
  simp only [entryPosOf] at hpop hext he0 he1 he2 he3
  simp only [roughSizeOf] at hext
  simp only [entryPosOf, roughSizeOf, exactSizeOf] at hbig
  simp only [roughSizeOf, exactSizeOf, entryPosOf]
  rw [if_pos hpop, if_neg (by omega), ByteSlice.get_eq_some file _ he0,
    ByteSlice.get_eq_some file _ he1, ByteSlice.get_eq_some file _ he2,
    ByteSlice.get_eq_some file _ he3]
  dsimp only
  rw [if_pos (by omega)]

/-- The loop body never produces a chunk-header error whose recorded slot
index is smaller than the slot at which processing starts. -/
theorem decodeLoop_no_early_headererr (file : ByteSlice) :
    ∀ (fuel iter : Nat) (output : List (List Nat × Nat)) (i a b : Nat), i < iter →
      decodeLoop file fuel iter output ≠
        DResult.err (RegionParseError.chunkHeaderErr i a b) := by
  intro fuel
  induction fuel with
  | zero => intro iter output i a b hi h; exact DResult.noConfusion h
  | succ n ih =>
    intro iter output i a b hi h
    rw [decodeLoop] at h
    rcases hg0 : file.get (iter * 4) with _ | v0 <;> rw [hg0] at h
    · exact DResult.noConfusion h
    rcases hg1 : file.get (iter * 4 + 1) with _ | v1 <;> rw [hg1] at h
    · exact DResult.noConfusion h
    rcases hg2 : file.get (iter * 4 + 2) with _ | v2 <;> rw [hg2] at h
    · exact DResult.noConfusion h
    rcases hg3 : file.get (iter * 4 + 3) with _ | v3 <;> rw [hg3] at h
    · exact DResult.noConfusion h
    dsimp only at h
    by_cases hp : (v0 <<< 16 + v1 <<< 8 + v2) * 4096 ≠ 0
    · rw [if_pos hp] at h
      by_cases hq : file.size < (v0 <<< 16 + v1 <<< 8 + v2) * 4096 + v3 * 4096
      · rw [if_pos hq] at h
        injection h with h'
        exact RegionParseError.noConfusion h'
      · rw [if_neg hq] at h
        rcases hh0 : file.get ((v0 <<< 16 + v1 <<< 8 + v2) * 4096) with _ | w0 <;>
          rw [hh0] at h
        · exact DResult.noConfusion h
        rcases hh1 : file.get ((v0 <<< 16 + v1 <<< 8 + v2) * 4096 + 1) with _ | w1 <;>
          rw [hh1] at h
        · exact DResult.noConfusion h
        rcases hh2 : file.get ((v0 <<< 16 + v1 <<< 8 + v2) * 4096 + 2) with _ | w2 <;>
          rw [hh2] at h
        · exact DResult.noConfusion h
        rcases hh3 : file.get ((v0 <<< 16 + v1 <<< 8 + v2) * 4096 + 3) with _ | w3 <;>
          rw [hh3] at h
        · exact DResult.noConfusion h
        dsimp only at h
        by_cases hr : 4 + (w0 <<< 24 + w1 <<< 16 + w2 <<< 8 + w3) > v3 * 4096
        · rw [if_pos hr] at h
          injection h with h'
          injection h' with e1 e2 e3
          omega
        · rw [if_neg hr] at h
          by_cases hs : (v0 <<< 16 + v1 <<< 8 + v2) * 4096 + 5 +
              (w0 <<< 24 + w1 <<< 16 + w2 <<< 8 + w3) ≤ file.size
          · rw [if_pos hs] at h
            rcases ht : file.get ((v0 <<< 16 + v1 <<< 8 + v2) * 4096 + 4) with _ | t <;>
              rw [ht] at h
            · exact DResult.noConfusion h
            · exact ih (iter + 1) _ i a b (by omega) h
          · rw [if_neg hs] at h
            exact DResult.noConfusion h
    · rw [if_neg hp] at h
      exact ih (iter + 1) _ i a b (by omega) h

/-- Slots whose position-table entry has a zero offset field are all
emitted as the pair of an empty payload and compression byte 0. -/
theorem decodeLoop_zeros (file : ByteSlice) :
    ∀ (fuel iter : Nat) (output : List (List Nat × Nat)),
      8192 ≤ file.size → iter + fuel ≤ 1024 →
      (∀ j, iter ≤ j → j < iter + fuel → entryPosOf file j = 0) →
      decodeLoop file fuel iter output =
        DResult.ok (output.reverse ++ List.replicate fuel ([], 0)) := by
  intro fuel
  induction fuel with
  | zero =>
    intro iter output _ _ _
    simp [decodeLoop]
  | succ n ih =>
    intro iter output hsz hle hz
    rw [decodeLoop_step_empty file n iter output hsz (by omega)
      (hz iter (by omega) (by omega))]
    rw [ih (iter + 1) _ hsz (by omega) (fun j h1 h2 => hz j (by omega) (by omega))]
    simp [List.replicate_succ]

/-- Shape of a successful run of the loop: one record per remaining slot,
appended after the already-accumulated output, with every zero-offset slot
yielding the pair of an empty payload and compression byte 0. -/
theorem decodeLoop_ok_shape (file : ByteSlice) :
    ∀ (fuel iter : Nat) (output : List (List Nat × Nat)) (out : List (List Nat × Nat)),
      decodeLoop file fuel iter output = DResult.ok out →
      ∃ rest, out = output.reverse ++ rest ∧ rest.length = fuel ∧
        ∀ j, j < fuel → entryPosOf file (iter + j) = 0 → rest.get? j = some ([], 0) := by
  intro fuel
  induction fuel with
  | zero =>
    intro iter output out h
    rw [decodeLoop] at h
    injection h with h'
    exact ⟨[], by simp [h'.symm], rfl, fun j hj => absurd hj (Nat.not_lt_zero j)⟩
  | succ n ih =>
    intro iter output out h
    rw [decodeLoop] at h
    rcases hg0 : file.get (iter * 4) with _ | v0 <;> rw [hg0] at h
    · exact DResult.noConfusion h
    rcases hg1 : file.get (iter * 4 + 1) with _ | v1 <;> rw [hg1] at h
    · exact DResult.noConfusion h
    rcases hg2 : file.get (iter * 4 + 2) with _ | v2 <;> rw [hg2] at h
    · exact DResult.noConfusion h
    rcases hg3 : file.get (iter * 4 + 3) with _ | v3 <;> rw [hg3] at h
    · exact DResult.noConfusion h
    dsimp only at h
    have hentry : entryPosOf file iter = (v0 <<< 16 + v1 <<< 8 + v2) * 4096 := by
      simp only [ByteSlice.get] at hg0 hg1 hg2
      by_cases h0 : iter * 4 < file.size
      · by_cases h1 : iter * 4 + 1 < file.size
        · by_cases h2 : iter * 4 + 2 < file.size
          · rw [if_pos h0] at hg0; rw [if_pos h1] at hg1; rw [if_pos h2] at hg2
            injection hg0 with e0; injection hg1 with e1; injection hg2 with e2
            simp [entryPosOf, e0, e1, e2]
          · rw [if_neg h2] at hg2; exact Option.noConfusion hg2
        · rw [if_neg h1] at hg1; exact Option.noConfusion hg1
      · rw [if_neg h0] at hg0; exact Option.noConfusion hg0
    by_cases hp : (v0 <<< 16 + v1 <<< 8 + v2) * 4096 ≠ 0
    · rw [if_pos hp] at h
      by_cases hq : file.size < (v0 <<< 16 + v1 <<< 8 + v2) * 4096 + v3 * 4096
      · rw [if_pos hq] at h; exact DResult.noConfusion h
      · rw [if_neg hq] at h
        rcases hh0 : file.get ((v0 <<< 16 + v1 <<< 8 + v2) * 4096) with _ | w0 <;>
          rw [hh0] at h
        · exact DResult.noConfusion h
        rcases hh1 : file.get ((v0 <<< 16 + v1 <<< 8 + v2) * 4096 + 1) with _ | w1 <;>
          rw [hh1] at h
        · exact DResult.noConfusion h
        rcases hh2 : file.get ((v0 <<< 16 + v1 <<< 8 + v2) * 4096 + 2) with _ | w2 <;>
          rw [hh2] at h
        · exact DResult.noConfusion h
        rcases hh3 : file.get ((v0 <<< 16 + v1 <<< 8 + v2) * 4096 + 3) with _ | w3 <;>
          rw [hh3] at h
        · exact DResult.noConfusion h
        dsimp only at h
        by_cases hr : 4 + (w0 <<< 24 + w1 <<< 16 + w2 <<< 8 + w3) > v3 * 4096
        · rw [if_pos hr] at h; exact DResult.noConfusion h
        · rw [if_neg hr] at h
          by_cases hs : (v0 <<< 16 + v1 <<< 8 + v2) * 4096 + 5 +
              (w0 <<< 24 + w1 <<< 16 + w2 <<< 8 + w3) ≤ file.size
          · rw [if_pos hs] at h
            rcases ht : file.get ((v0 <<< 16 + v1 <<< 8 + v2) * 4096 + 4) with _ | t <;>
              rw [ht] at h
            · exact DResult.noConfusion h
            · obtain ⟨rest, hout, hlen, hget⟩ := ih (iter + 1) _ out h
              refine ⟨((List.range (w0 <<< 24 + w1 <<< 16 + w2 <<< 8 + w3)).map
                  (fun j => file.byte ((v0 <<< 16 + v1 <<< 8 + v2) * 4096 + 5 + j)), t) ::
                  rest, ?_, by simp [hlen], ?_⟩
              · simpa using hout
              · intro j hj hzero
                match j with
                | 0 =>
                  have hzero' : entryPosOf file iter = 0 := by simpa using hzero
                  rw [hentry] at hzero'; exact absurd hzero' hp
                | Nat.succ k =>
                  have := hget k (by omega) (by rw [show iter + 1 + k = iter + (k + 1) by omega]; exact hzero)
                  simpa using this
          · rw [if_neg hs] at h; exact DResult.noConfusion h
    · rw [if_neg hp] at h
      obtain ⟨rest, hout, hlen, hget⟩ := ih (iter + 1) _ out h
      refine ⟨([], 0) :: rest, by simpa using hout, by simp [hlen], ?_⟩
      intro j hj hzero
      match j with
      | 0 => rfl
      | Nat.succ k =>
        have := hget k (by omega) (by rw [show iter + 1 + k = iter + (k + 1) by omega]; exact hzero)
        simpa using this

theorem entryPosOf_eq_zero (file : ByteSlice) (j : Nat)
    (h0 : file.byte (j * 4) = 0) (h1 : file.byte (j * 4 + 1) = 0)
    (h2 : file.byte (j * 4 + 2) = 0) : entryPosOf file j = 0 := by
  simp [entryPosOf, h0, h1, h2]

theorem replicate_get?_lt {α : Type} (a : α) :
    ∀ (n i : Nat), i < n → (List.replicate n a).get? i = some a := by
  intro n
  induction n with
  | zero => intro i h; omega
  | succ m ih =>
    intro i h
    match i with
    | 0 => rfl
    | Nat.succ k => exact ih k (by omega)

/-- If the position check passes but the extent start is at or past the
end of the buffer (possible when the size byte is 0), the header read
`file[entry_pos]` is out of bounds and the loop panics. -/
theorem decodeLoop_step_panic_hdrread (file : ByteSlice) (fuel iter : Nat)
    (output : List (List Nat × Nat))
    (hsz : 8192 ≤ file.size) (hiter : iter < 1024)
    (hpop : entryPosOf file iter ≠ 0)
    (hext : entryPosOf file iter + roughSizeOf file iter ≤ file.size)
    (hro : file.size ≤ entryPosOf file iter) :
    decodeLoop file (fuel + 1) iter output = DResult.panic := by
  have h0 : iter * 4 < file.size := by omega
  have h1 : iter * 4 + 1 < file.size := by omega
  have h2 : iter * 4 + 2 < file.size := by omega
  have h3 : iter * 4 + 3 < file.size := by omega
  have hnone : file.get (entryPosOf file iter) = Option.none := by
    rw [ByteSlice.get, if_neg (by omega)]
  rw [decodeLoop, ByteSlice.get_eq_some file _ h0, ByteSlice.get_eq_some file _ h1,
    ByteSlice.get_eq_some file _ h2, ByteSlice.get_eq_some file _ h3]
  simp only [entryPosOf] at hpop hext hnone
  simp only [roughSizeOf] at hext
  dsimp only
  rw [if_pos hpop, if_neg (by omega), hnone]

/-- If the header check passes but the payload slice
`file[(entry_pos + 5)..=(entry_pos + 4 + size)]` overruns the buffer (the
off-by-one case `entry_pos + 5 + size = file.size + 1`), the loop
panics. -/
theorem decodeLoop_step_panic_slice (file : ByteSlice) (fuel iter : Nat)
    (output : List (List Nat × Nat))
    (hsz : 8192 ≤ file.size) (hiter : iter < 1024)
    (hpop : entryPosOf file iter ≠ 0)
    (hext : entryPosOf file iter + roughSizeOf file iter ≤ file.size)
    (hhdr : 4 + exactSizeOf file (entryPosOf file iter) ≤ roughSizeOf file iter)
    (hslice : file.size < entryPosOf file iter + 5 + exactSizeOf file (entryPosOf file iter)) :
    decodeLoop file (fuel + 1) iter output = DResult.panic := by
  have h0 : iter * 4 < file.size := by omega
  have h1 : iter * 4 + 1 < file.size := by omega
  have h2 : iter * 4 + 2 < file.size := by omega
  have h3 : iter * 4 + 3 < file.size := by omega
  have hr4096 : 4096 ≤ roughSizeOf file iter := by
    have : roughSizeOf file iter ≠ 0 := by omega
    simp only [roughSizeOf] at this ⊢
    omega
  have he0 : entryPosOf file iter < file.size := by omega
  have he1 : entryPosOf file iter + 1 < file.size := by omega
  have he2 : entryPosOf file iter + 2 < file.size := by omega
  have he3 : entryPosOf file iter + 3 < file.size := by omega
  rw [decodeLoop, ByteSlice.get_eq_some file _ h0, ByteSlice.get_eq_some file _ h1,
    ByteSlice.get_eq_some file _ h2, ByteSlice.get_eq_some file _ h3]
  simp only [entryPosOf] at hpop hext he0 he1 he2 he3 hhdr hslice
  simp only [roughSizeOf] at hext hhdr
  simp only [exactSizeOf] at hhdr hslice
  dsimp only
  rw [if_pos hpop, if_neg (by omega), ByteSlice.get_eq_some file _ he0,
    ByteSlice.get_eq_some file _ he1, ByteSlice.get_eq_some file _ he2,
    ByteSlice.get_eq_some file _ he3]
  dsimp only
  rw [if_neg (by omega), if_neg (by omega)]

/-- Packing any prefix of the all-absent chunk list yields empty
extents. -/
theorem pack_chunksLoop_absent :
    ∀ (fuel iter : Nat) (acc : List (List Nat)), iter + fuel ≤ 1024 →
      pack_chunksLoop (List.replicate 1024 absentChunk) AnvilSchema.default fuel iter acc =
        some (acc.reverse ++ List.replicate fuel []) := by
  intro fuel
  induction fuel with
  | zero => intro iter acc _; simp [pack_chunksLoop]
  | succ n ih =>
    intro iter acc h
    rw [pack_chunksLoop, replicate_get?_lt absentChunk 1024 iter (by omega)]
    show pack_chunksLoop _ _ n (iter + 1) ([] :: acc) = _
    rw [ih (iter + 1) ([] :: acc) (by omega)]
    simp [List.replicate_succ]

/-- The first iteration of `create_header_table` computes the width of the
position field as `start - end = 0 - 3`, which underflows `usize`: the
call panics on any nonempty chunk list. -/
theorem create_header_tableLoop_panic (chunks : List RawChunk)
    (packed_chunks : List (List Nat)) (fuel iter pos : Nat)
    (tbl1 tbl2 : List Nat)
    (hc : iter < chunks.length) (hp : iter < packed_chunks.length) :
    create_header_tableLoop chunks packed_chunks AnvilSchema.default
      (fuel + 1) iter pos tbl1 tbl2 = Option.none := by
  have hcg : chunks.get? iter = some (chunks.get ⟨iter, hc⟩) := List.get?_eq_get hc
  have hpg : packed_chunks.get? iter = some (packed_chunks.get ⟨iter, hp⟩) :=
    List.get?_eq_get hp
  rw [create_header_tableLoop, hcg, hpg]
  rcases hcc : chunks.get ⟨iter, hc⟩ with ⟨compr, chunk, ts⟩
  simp [checkedSub, AnvilSchema.default, Option.bind]

theorem allAbsentRegion_chunks_length : allAbsentRegion.chunks.length = 1024 := by
  rw [show allAbsentRegion.chunks = List.replicate 1024 absentChunk from rfl,
    List.length_replicate]

/-- `RawRegion::to_file` panics on the all-absent region: the slot count
matches and every extent packs to nothing, but `create_header_table`
underflows computing `0 - 3`. -/
theorem to_file_absent_panic :
    RawRegion.to_file allAbsentRegion AnvilSchema.default = PackResult.panic := by
  rw [RawRegion.to_file]
  rw [if_neg (by rw [Ne, allAbsentRegion_chunks_length]; decide)]
  have hpack : pack_chunks allAbsentRegion.chunks AnvilSchema.default =
      some (List.replicate 1024 []) := by
    show pack_chunksLoop _ _ (AnvilSchema.default.chunks_per_region) 0 [] = _
    rw [show AnvilSchema.default.chunks_per_region = 1024 from rfl,
      show allAbsentRegion.chunks = List.replicate 1024 absentChunk from rfl,
      pack_chunksLoop_absent 1024 0 [] (by omega)]
    rfl
  rw [hpack]
  dsimp only
  have htbl : create_header_table allAbsentRegion.chunks (List.replicate 1024 [])
      AnvilSchema.default = Option.none := by
    rw [create_header_table, allAbsentRegion_chunks_length]
    exact create_header_tableLoop_panic _ _ 1023 0 0 [] []
      (by rw [allAbsentRegion_chunks_length]; omega)
      (by rw [List.length_replicate]; omega)
  rw [htbl]

/-- Decoding the all-zero 8192-byte buffer succeeds with 1024 empty
records. -/
theorem decode_zeroSlice8192 :
    get_region_raw zeroSlice8192 = DResult.ok (List.replicate 1024 ([], 0)) := by
  rw [get_region_raw, if_neg (by decide)]
  show decodeLoop zeroSlice8192 1024 0 [] = _
  rw [decodeLoop_zeros zeroSlice8192 1024 0 [] (by decide) (by omega)
    (fun j _ _ => entryPosOf_eq_zero _ _ rfl rfl rfl)]
  rw [List.reverse_nil, List.nil_append]

/-- C1: the round-trip law fails because `RawRegion::to_file` is not a
working encoder: on the all-absent region of exactly 1024 records it
panics inside `create_header_table` (the field width `0 - 3` underflows
`usize`), and even the value it would otherwise return is `Ok(Vec::new())`
— an empty byte vector, which `get_region_raw` rejects with a file-size
error, so no region can survive `decode ∘ encode`. -/
theorem c1_roundtrip_impossible :
    RawRegion.to_file allAbsentRegion AnvilSchema.default = PackResult.panic ∧
    get_region_raw emptySlice = DResult.err (RegionParseError.fileSizeErr 0 8192) := by
  refine ⟨to_file_absent_panic, ?_⟩
  rw [get_region_raw, if_pos (by decide)]
  rfl

/-- C3: the absence-encoding property fails: encoding the all-absent
region does not return the 8192 zero bytes of `min_file_size` — it panics
in `create_header_table` — although `format_chunk_data` does serialize an
empty record as a zero-length extent as the spec describes. -/
theorem c3_absence_encoding_bug :
    RawRegion.to_file allAbsentRegion AnvilSchema.default = PackResult.panic ∧
    format_chunk_data [] Compression.none AnvilSchema.default = some [] :=
  ⟨to_file_absent_panic, rfl⟩

/-- C4: the encoder-layout property fails in `create_header_table`: the
position-table field widths are computed as `start - end` (`0 - 3`), a
`usize` underflow, so the table builder panics on any chunk list (first
conjunct); only the padding half of the claim is implemented correctly by
`get_packed_chunk` (second conjunct). -/
theorem c4_header_table_bug :
    create_header_table demoChunks demoPacked AnvilSchema.default = Option.none ∧
    get_packed_chunk (List.replicate 10 1) AnvilSchema.default =
      List.replicate 10 1 ++ List.replicate 4086 0 := by
  constructor
  · rw [create_header_table]
    show create_header_tableLoop demoChunks demoPacked AnvilSchema.default (0 + 1) 0 0 [] [] = _
    exact create_header_tableLoop_panic demoChunks demoPacked 0 0 0 [] [] (by decide) (by decide)
  · rw [get_packed_chunk]
    rw [List.length_replicate]
    rw [show next_multiple 10 AnvilSchema.default.size_multiplier - 10 = 4086 from by
      rw [show AnvilSchema.default.size_multiplier = 4096 from rfl, next_multiple]]

/-- C5: `RawRegion::to_file` returns the slot-count error, carrying the
actual record count and the expected `schema.chunks_per_region` (stored as
both `min_val` and `max_val`), exactly when the region's record count
differs from `schema.chunks_per_region`. -/
theorem c5_slot_count_check (region : RawRegion) (schema : AnvilSchema) :
    RawRegion.to_file region schema =
      PackResult.err (RawError.throw_no_chunks_err region.chunks.length
        schema.chunks_per_region) ↔
      region.chunks.length ≠ schema.chunks_per_region := by
  rw [RawRegion.to_file]
  by_cases h : region.chunks.length ≠ schema.chunks_per_region
  · rw [if_pos h]
    simp [h]
  · rw [if_neg h]
    constructor
    · intro hcontra
      rcases hp : pack_chunks region.chunks schema with _ | packed <;> rw [hp] at hcontra
      · exact PackResult.noConfusion hcontra
      · dsimp only at hcontra
        rcases hc : create_header_table region.chunks packed schema with _ | tbl <;>
          rw [hc] at hcontra <;> dsimp only at hcontra
        · exact PackResult.noConfusion hcontra
        · exact PackResult.noConfusion hcontra
    · intro hcontra
      exact absurd hcontra h

/-- C5 witness: a region of 1023 records is rejected with the error
carrying actual 1023 and expected 1024. -/
theorem c5_slot_count_witness :
    RawRegion.to_file region1023 AnvilSchema.default =
      PackResult.err (RawError.packNoChunksErr ⟨0, 1023, 1024, 1024⟩) := by
  have hl : region1023.chunks.length = 1023 := by
    rw [show region1023.chunks = List.replicate 1023 absentChunk from rfl,
      List.length_replicate]
  have h := (c5_slot_count_check region1023 AnvilSchema.default).mpr
    (by rw [hl]; decide)
  rw [hl] at h
  exact h

/-- C6: decoding any buffer shorter than 8192 bytes fails with the
file-size error carrying the actual length and the minimum 8192, and
decoding an 8192-byte buffer whose position table is all zero succeeds
(with 1024 empty records). -/
theorem c6_min_size_boundary :
    (∀ file : ByteSlice, file.size < 8192 →
      get_region_raw file = DResult.err (RegionParseError.fileSizeErr file.size 8192)) ∧
    (∀ file : ByteSlice, file.size = 8192 → (∀ i, i < 4096 → file.byte i = 0) →
      get_region_raw file = DResult.ok (List.replicate 1024 ([], 0))) := by
  constructor
  · intro file h
    rw [get_region_raw, if_pos h]
  · intro file hsz hz
    rw [get_region_raw, if_neg (by omega)]
    show decodeLoop file 1024 0 [] = _
    rw [decodeLoop_zeros file 1024 0 [] (by omega) (by omega)
      (fun j _ hj => entryPosOf_eq_zero _ _ (hz _ (by omega)) (hz _ (by omega))
        (hz _ (by omega)))]
    rw [List.reverse_nil, List.nil_append]

/-- C6 witness: an 8191-byte buffer fails with the file-size error; the
all-zero 8192-byte buffer decodes successfully. -/
theorem c6_min_size_witness :
    get_region_raw ⟨8191, fun _ => 0⟩ =
      DResult.err (RegionParseError.fileSizeErr 8191 8192) ∧
    get_region_raw zeroSlice8192 = DResult.ok (List.replicate 1024 ([], 0)) :=
  ⟨c6_min_size_boundary.1 ⟨8191, fun _ => 0⟩ (by decide),
   c6_min_size_boundary.2 zeroSlice8192 rfl (fun i _ => rfl)⟩

/-- C7: at any slot the loop reaches whose position-table offset field is
nonzero, if the buffer length is smaller than `entry_pos + rough_size`
(both table fields multiplied by the 4096-byte block size), decode fails
with the chunk-position error carrying the slot index, the buffer length,
and the extent end. -/
theorem c7_position_overrun (file : ByteSlice) (fuel iter : Nat)
    (output : List (List Nat × Nat))
    (hsz : 8192 ≤ file.size) (hiter : iter < 1024)
    (hpop : entryPosOf file iter ≠ 0)
    (hover : file.size < entryPosOf file iter + roughSizeOf file iter) :
    decodeLoop file (fuel + 1) iter output =
      DResult.err (RegionParseError.chunkPosErr iter file.size
        (entryPosOf file iter + roughSizeOf file iter)) :=
  decodeLoop_step_poserr file fuel iter output hsz hiter hpop hover

/-- C7 witness: a buffer whose slot 0 points at block 100 (byte 409600,
far past the 8192-byte end) fails with the chunk-position error for slot
0. -/
theorem c7_position_overrun_witness :
    get_region_raw w7file = DResult.err (RegionParseError.chunkPosErr 0 8192 409600) := by
  rw [get_region_raw, if_neg (by decide)]
  show decodeLoop w7file (1023 + 1) 0 [] = _
  exact (c7_position_overrun w7file 1023 0 [] (by decide) (by decide) (by decide)
    (by decide)).trans (by decide)

/-- C10: the decoder is not total — on the 8192-byte buffer `c10file`,
whose slot-0 entry has offset field 2 and size byte 0, the position check
`file.len() < entry_pos + rough_size` passes (`8192 < 8192 + 0` is false)
and the subsequent header read `file[entry_pos] = file[8192]` indexes one
past the end of the buffer, so `get_region_raw` panics instead of
returning `Ok` or `Err`. -/
theorem c10_decode_panic : get_region_raw c10file = DResult.panic := by
  rw [get_region_raw, if_neg (by decide)]
  show decodeLoop c10file (1023 + 1) 0 [] = _
  exact decodeLoop_step_panic_hdrread c10file 1023 0 [] (by decide) (by decide)
    (by decide) (by decide) (by decide)

/-- C2 (amended): at any slot the loop reaches whose offset field is
nonzero and whose extent and header lie within the buffer, the decoder
fails with the chunk-header error — carrying the slot index, the extent
length `rough_size`, and the declared length — exactly when the declared
length exceeds the extent length, where the declared length is the exact
length field plus 4 (the width of the length field itself), not plus
`schema.chunk_body_offset = 5` as the claim states. -/
theorem c2_header_check (file : ByteSlice) (fuel iter : Nat)
    (output : List (List Nat × Nat))
    (hsz : 8192 ≤ file.size) (hiter : iter < 1024)
    (hpop : entryPosOf file iter ≠ 0)
    (hext : entryPosOf file iter + roughSizeOf file iter ≤ file.size)
    (hrd : entryPosOf file iter + 4 ≤ file.size) :
    (decodeLoop file (fuel + 1) iter output =
      DResult.err (RegionParseError.chunkHeaderErr iter (roughSizeOf file iter)
        (4 + exactSizeOf file (entryPosOf file iter)))) ↔
      roughSizeOf file iter < 4 + exactSizeOf file (entryPosOf file iter) := by
  constructor
  · intro h
    by_contra hle
    push_neg at hle
    by_cases hs : entryPosOf file iter + 5 + exactSizeOf file (entryPosOf file iter) ≤
        file.size
    · rw [decodeLoop_step_emit file fuel iter output hsz hiter hpop hext hle hs] at h
      exact decodeLoop_no_early_headererr file fuel (iter + 1) _ iter _ _ (by omega) h
    · rw [decodeLoop_step_panic_slice file fuel iter output hsz hiter hpop hext hle
        (by omega)] at h
      exact DResult.noConfusion h
  · exact decodeLoop_step_headererr file fuel iter output hsz hiter hpop hext hrd

/-- C2 witness: slot 0 of `c2wfile` declares exact size 4093, so the
declared length 4 + 4093 = 4097 exceeds the 4096-byte extent and decode
fails with the chunk-header error carrying (0, 4096, 4097). -/
theorem c2_header_check_witness :
    decodeLoop c2wfile (1023 + 1) 0 [] =
      DResult.err (RegionParseError.chunkHeaderErr 0 4096 4097) := by
  have h := (c2_header_check c2wfile 1023 0 [] (by decide) (by decide) (by decide)
    (by decide) (by decide)).mpr (by decide)
  exact h.trans (by decide)

/-- C2 counterexample: in `c2xfile`, slot 0 declares exact size 4092
within a 4096-byte extent, so the claim's declared length
`4092 + chunk_body_offset = 4097` exceeds the extent length 4096 and the
claim predicts a `ChunkHeaderError`; the code instead compares
`4 + 4092 = 4096 ≤ 4096` and decodes the slot successfully. -/
theorem c2_counterexample :
    get_region_raw c2xfile =
      DResult.ok ((List.replicate 4092 0, 1) :: List.replicate 1023 ([], 0)) ∧
    roughSizeOf c2xfile 0 < exactSizeOf c2xfile (entryPosOf c2xfile 0) + 5 := by
  have hb : ∀ k, 4 ≤ k → k < 4096 → c2xfile.byte k = 0 := by
    intro k h1 h2
    simp only [c2xfile]
    rw [if_neg (by omega), if_neg (by omega), if_neg (by omega), if_neg (by omega),
      if_neg (by omega)]
  have hpayload : (List.range (exactSizeOf c2xfile (entryPosOf c2xfile 0))).map
      (fun j => c2xfile.byte (entryPosOf c2xfile 0 + 5 + j)) = List.replicate 4092 0 := by
    rw [show entryPosOf c2xfile 0 = 8192 from by decide,
      show exactSizeOf c2xfile 8192 = 4092 from by decide]
    rw [List.eq_replicate_iff]
    refine ⟨by rw [List.length_map, List.length_range], ?_⟩
    intro b hbm
    simp only [List.mem_map, List.mem_range] at hbm
    obtain ⟨j, hj, rfl⟩ := hbm
    simp only [c2xfile]
    rw [if_neg (by omega), if_neg (by omega), if_neg (by omega), if_neg (by omega),
      if_neg (by omega)]
  constructor
  · rw [get_region_raw, if_neg (by decide)]
    show decodeLoop c2xfile (1023 + 1) 0 [] = _
    rw [decodeLoop_step_emit c2xfile 1023 0 [] (by decide) (by decide) (by decide)
      (by decide) (by decide) (by decide)]
    rw [decodeLoop_zeros c2xfile 1023 1 _ (by decide) (by omega)
      (fun j h1 h2 => entryPosOf_eq_zero _ _ (hb _ (by omega) (by omega))
        (hb _ (by omega) (by omega)) (hb _ (by omega) (by omega)))]
    rw [hpayload, show c2xfile.byte (entryPosOf c2xfile 0 + 4) = 1 from by decide]
    rfl
  · decide

/-- C8 (amended): at any slot the loop reaches whose offset field is
nonzero, whose extent lies within the buffer, whose declared length
`4 + exact_size` fits the extent, and whose payload slice fits the
buffer, the decoder emits the pair of the payload bytes
`entry_pos + 5 .. entry_pos + 5 + exact_size` and the raw compression tag
byte `file[entry_pos + 4]`, preserved verbatim for every tag value (never
an error); no `Compression` variant is constructed and no timestamp is
attached — the emitted record is a `(payload, tag)` pair only. -/
theorem c8_populated_slot_emission (file : ByteSlice) (fuel iter : Nat)
    (output : List (List Nat × Nat))
    (hsz : 8192 ≤ file.size) (hiter : iter < 1024)
    (hpop : entryPosOf file iter ≠ 0)
    (hext : entryPosOf file iter + roughSizeOf file iter ≤ file.size)
    (hhdr : 4 + exactSizeOf file (entryPosOf file iter) ≤ roughSizeOf file iter)
    (hslice : entryPosOf file iter + 5 + exactSizeOf file (entryPosOf file iter) ≤
      file.size) :
    decodeLoop file (fuel + 1) iter output =
      decodeLoop file fuel (iter + 1)
        (((List.range (exactSizeOf file (entryPosOf file iter))).map
            (fun j => file.byte (entryPosOf file iter + 5 + j)),
          file.byte (entryPosOf file iter + 4)) :: output) :=
  decodeLoop_step_emit file fuel iter output hsz hiter hpop hext hhdr hslice

/-- C8 witness: slot 0 of `c8afile` (exact size 10, tag byte 7) is
emitted as the pair of its 10 payload bytes and the raw tag byte 7. -/
theorem c8_populated_slot_witness :
    decodeLoop c8afile (1023 + 1) 0 [] =
      decodeLoop c8afile 1023 1
        [((List.range (exactSizeOf c8afile (entryPosOf c8afile 0))).map
            (fun j => c8afile.byte (entryPosOf c8afile 0 + 5 + j)),
          c8afile.byte (entryPosOf c8afile 0 + 4))] ∧
    c8afile.byte (entryPosOf c8afile 0 + 4) = 7 :=
  ⟨c8_populated_slot_emission c8afile 1023 0 [] (by decide) (by decide) (by decide)
    (by decide) (by decide) (by decide), by decide⟩

/-- C8 counterexample: `c8afile` and `c8bfile` differ exactly in
timestamp-table entry 0 (42 versus 0), yet `get_region_raw` returns the
same region for both — the record it emits for the populated slot 0 is
the pair `(payload, 7)`, with the tag byte 7 kept as a raw byte rather
than a `Compression::Other(7)` value (the source enum has no such
variant) and with no timestamp field at all, so the emitted record cannot
equal the claim's `Record{compression, payload, timestamp[i]}` for both
buffers. -/
theorem c8_counterexample :
    c8afile.byte 4099 = 42 ∧ c8bfile.byte 4099 = 0 ∧
    get_region_raw c8afile = get_region_raw c8bfile ∧
    get_region_raw c8afile =
      DResult.ok ((List.replicate 10 9, 7) :: List.replicate 1023 ([], 0)) := by
  have hba : ∀ k, 4 ≤ k → k < 4096 → c8afile.byte k = 0 := by
    intro k h1 h2
    simp only [c8afile]
    rw [if_neg (by omega), if_neg (by omega), if_neg (by omega), if_neg (by omega),
      if_neg (by omega), if_neg (by omega)]
  have hbb : ∀ k, 4 ≤ k → k < 4096 → c8bfile.byte k = 0 := by
    intro k h1 h2
    simp only [c8bfile]
    rw [if_neg (by omega), if_neg (by omega), if_neg (by omega), if_neg (by omega),
      if_neg (by omega)]
  have hpa : (List.range (exactSizeOf c8afile (entryPosOf c8afile 0))).map
      (fun j => c8afile.byte (entryPosOf c8afile 0 + 5 + j)) = List.replicate 10 9 := by
    rw [show entryPosOf c8afile 0 = 8192 from by decide,
      show exactSizeOf c8afile 8192 = 10 from by decide]
    decide
  have hpb : (List.range (exactSizeOf c8bfile (entryPosOf c8bfile 0))).map
      (fun j => c8bfile.byte (entryPosOf c8bfile 0 + 5 + j)) = List.replicate 10 9 := by
    rw [show entryPosOf c8bfile 0 = 8192 from by decide,
      show exactSizeOf c8bfile 8192 = 10 from by decide]
    decide
  have hda : get_region_raw c8afile =
      DResult.ok ((List.replicate 10 9, 7) :: List.replicate 1023 ([], 0)) := by
    rw [get_region_raw, if_neg (by decide)]
    show decodeLoop c8afile (1023 + 1) 0 [] = _
    rw [decodeLoop_step_emit c8afile 1023 0 [] (by decide) (by decide) (by decide)
      (by decide) (by decide) (by decide)]
    rw [decodeLoop_zeros c8afile 1023 1 _ (by decide) (by omega)
      (fun j h1 h2 => entryPosOf_eq_zero _ _ (hba _ (by omega) (by omega))
        (hba _ (by omega) (by omega)) (hba _ (by omega) (by omega)))]
    rw [hpa, show c8afile.byte (entryPosOf c8afile 0 + 4) = 7 from by decide]
    rfl
  have hdb : get_region_raw c8bfile =
      DResult.ok ((List.replicate 10 9, 7) :: List.replicate 1023 ([], 0)) := by
    rw [get_region_raw, if_neg (by decide)]
    show decodeLoop c8bfile (1023 + 1) 0 [] = _
    rw [decodeLoop_step_emit c8bfile 1023 0 [] (by decide) (by decide) (by decide)
      (by decide) (by decide) (by decide)]
    rw [decodeLoop_zeros c8bfile 1023 1 _ (by decide) (by omega)
      (fun j h1 h2 => entryPosOf_eq_zero _ _ (hbb _ (by omega) (by omega))
        (hbb _ (by omega) (by omega)) (hbb _ (by omega) (by omega)))]
    rw [hpb, show c8bfile.byte (entryPosOf c8bfile 0 + 4) = 7 from by decide]
    rfl
  exact ⟨by decide, by decide, hda.trans hdb.symm, hda⟩

/-- C9 (amended): whenever `get_region_raw` succeeds, the returned region
has exactly `CHUNKS_PER_REGION = 1024` records in position-table order,
and every slot whose offset field is zero is emitted as the pair of an
empty payload and compression byte 0; the decoder reads no timestamps, so
no timestamp accompanies the records. -/
theorem c9_decode_shape (file : ByteSlice) (out : List (List Nat × Nat))
    (h : get_region_raw file = DResult.ok out) :
    out.length = CHUNKS_PER_REGION ∧
      ∀ j, j < CHUNKS_PER_REGION → entryPosOf file j = 0 →
        out.get? j = some ([], 0) := by
  rw [get_region_raw] at h
  by_cases hlt : file.size < 8192
  · rw [if_pos hlt] at h
    exact absurd h (fun hc => DResult.noConfusion hc)
  · rw [if_neg hlt] at h
    obtain ⟨rest, hout, hlen, hget⟩ := decodeLoop_ok_shape file CHUNKS_PER_REGION 0 [] out h
    rw [List.reverse_nil, List.nil_append] at hout
    subst hout
    refine ⟨hlen, fun j hj hz => ?_⟩
    exact hget j hj (by rw [Nat.zero_add]; exact hz)

/-- C9 witness: the all-zero 8192-byte buffer decodes to 1024 records,
and the (zero-offset) slot 5 is the empty-payload pair. -/
theorem c9_decode_shape_witness :
    (List.replicate 1024 (([] : List Nat), (0 : Nat))).length = CHUNKS_PER_REGION ∧
    (List.replicate 1024 (([] : List Nat), (0 : Nat))).get? 5 = some ([], 0) :=
  ⟨(c9_decode_shape zeroSlice8192 _ decode_zeroSlice8192).1,
   (c9_decode_shape zeroSlice8192 _ decode_zeroSlice8192).2 5 (by decide)
     (entryPosOf_eq_zero _ _ rfl rfl rfl)⟩

theorem c9_counterexample :
    tsSlice8192.byte 4099 = 42 ∧ zeroSlice8192.byte 4099 = 0 ∧
    get_region_raw tsSlice8192 = get_region_raw zeroSlice8192 := by
  refine ⟨rfl, rfl, ?_⟩
  rw [decode_zeroSlice8192]
  rw [get_region_raw, if_neg (by decide)]
  show decodeLoop tsSlice8192 1024 0 [] = _
  rw [decodeLoop_zeros tsSlice8192 1024 0 [] (by decide) (by omega) ?_]
  · rw [List.reverse_nil, List.nil_append]
  · intro j h1 h2
    refine entryPosOf_eq_zero _ _ ?_ ?_ ?_ <;>
      · simp only [tsSlice8192]
        rw [if_neg (by omega)]

end Anvil
